import Mathlib

/-!
Shallow embedding of `src/main.cpp` of the simplestream parser: the JSON
document tree (jsoncpp's `Json::Value` as the program consumes it), the
`JsonAccessors` helpers, the `Product` view and the `Simplestream` catalog,
together with theorems settling the specification claims about them.
-/

/-- The JSON document tree (`Json::Value`), restricted to the shapes the
program distinguishes via `isObject` / `isString` / `isBool` / `isNull`
(numbers would behave exactly like `arr` here: a wrong type for every
accessor). Objects keep their members as an ordered association list; the
list order is the member order that `getMemberNames` reports. -/
inductive Json where
  | null
  | bool (b : Bool)
  | str (s : String)
  | arr (elems : List Json)
  | obj (members : List (String × Json))

namespace Json

/-- `Json::Value::operator[] const` for the receivers the program indexes
(objects and null): an object yields the named member, or null when the key
is absent; any other receiver yields null. -/
def index (val : Json) (key : String) : Json :=
  match val with
  | .obj members =>
    match members.find? (fun kv => kv.1 == key) with
    | some kv => kv.2
    | none => .null
  | _ => .null

/-- `Json::Value::isObject`. -/
def isObject : Json → Bool
  | .obj _ => true
  | _ => false

/-- `Json::Value::isString`. -/
def isString : Json → Bool
  | .str _ => true
  | _ => false

/-- `Json::Value::isBool`. -/
def isBool : Json → Bool
  | .bool _ => true
  | _ => false

/-- `Json::Value::isNull`. -/
def isNull : Json → Bool
  | .null => true
  | _ => false

/-- `Json::Value::getMemberNames`: the member names of an object, in member
order; empty for non-objects. -/
def getMemberNames : Json → List String
  | .obj members => members.map Prod.fst
  | _ => []

end Json

/-- The errors the program can throw (it throws `std::runtime_error` with
exactly these messages). The first three are the "`<key>` is not a ..."
type-mismatch messages of `JsonAccessors`; `noMembers` is
"object has no members" from `getLastMemberName`; `parseError` carries the
reader's formatted parse diagnostic. `missingField` is the spec's abstract
`MissingField` error kind: no statement in `src/main.cpp` throws it, and it
is declared here only so that claims about it can be stated and refuted. -/
inductive JsonError where
  | notAnObject (key : String)
  | notAString (key : String)
  | notABoolean (key : String)
  | noMembers
  | parseError (msg : String)
  | missingField (key : String)
  deriving DecidableEq

/-- Whether an error is the spec's `MissingField` kind. -/
def JsonError.isMissingField : JsonError → Bool
  | .missingField _ => true
  | _ => false

/-- Whether a list of characters occurs contiguously inside another;
`charsInfix p l` models `std::string_view::find(p) != npos` on the
underlying character data (vacuously true for an empty `p`). -/
def charsInfix (p : List Char) : List Char → Bool
  | [] => p.isEmpty
  | c :: rest => p.isPrefixOf (c :: rest) || charsInfix p rest

/-- `s.find(pattern) != npos` of `std::string` / `std::string_view`:
`pattern` occurs in `s` as a contiguous substring. -/
def containsSubstr (s pattern : String) : Bool :=
  charsInfix pattern.data s.data

/-- `std::string::ends_with`. -/
def strEndsWith (s suffix : String) : Bool :=
  suffix.data.isSuffixOf s.data

/-- Helper for `splitOnCommas`: `acc` holds the characters of the current
token in reverse. -/
def splitCommaAux : List Char → List Char → List String
  | acc, [] => [String.mk acc.reverse]
  | acc, c :: rest =>
    if c = ',' then String.mk acc.reverse :: splitCommaAux [] rest
    else splitCommaAux (c :: acc) rest

/-- `str | std::views::lazy_split(',')`, with each subrange materialised as
a string: splitting on commas, keeping interior and trailing empty tokens
(`"a,"` splits to `["a", ""]`, `","` to `["", ""]`), except that an empty
input range has no subranges at all (`""` splits to `[]`: the view's outer
iterator starts at its end with no trailing-empty pending). -/
def splitOnCommas (s : String) : List String :=
  match s.data with
  | [] => []
  | cs => splitCommaAux [] cs

/-- Configured target architecture (`ARCH_NAME`). -/
def ARCH_NAME : String := "amd64"

/-- Configured disk image member key (`IMAGE_TAG`). -/
def IMAGE_TAG : String := "disk1.img"

/-- Configured checksum member key (`INFO_TAG`). -/
def INFO_TAG : String := "sha256"

namespace JsonAccessors

/-- `JsonAccessors::getObject`: index the key, fail unless the result is an
object. -/
def getObject (val : Json) (key : String) : Except JsonError Json :=
  let ret := val.index key
  if ret.isObject then .ok ret else .error (.notAnObject key)

/-- `JsonAccessors::getString`: index the key, fail unless the result is a
string. -/
def getString (val : Json) (key : String) : Except JsonError String :=
  match val.index key with
  | .str s => .ok s
  | _ => .error (.notAString key)

/-- `JsonAccessors::getBool`: index the key, fail unless the result is a
boolean. -/
def getBool (val : Json) (key : String) : Except JsonError Bool :=
  match val.index key with
  | .bool b => .ok b
  | _ => .error (.notABoolean key)

/-- `JsonAccessors::getLastMemberName`: the last member name of the object,
failing when it has no members. -/
def getLastMemberName (val : Json) : Except JsonError String :=
  match val.getMemberNames.getLast? with
  | some m => .ok m
  | none => .error .noMembers

end JsonAccessors

/-- `Product`: a view of one member of the "products" object, holding a
reference to its node. -/
structure Product where
  m_prod : Json

namespace Product

/-- `Product::operator bool`, i.e. `!!m_prod`: jsoncpp's `operator!` is
`isNull`, so the conversion is true exactly when the node is non-null. -/
def isValid (p : Product) : Bool :=
  !p.m_prod.isNull

/-- `Product::getSupported`. -/
def getSupported (p : Product) : Except JsonError Bool :=
  JsonAccessors.getBool p.m_prod "supported"

/-- `Product::getAliases`. -/
def getAliases (p : Product) : Except JsonError String :=
  JsonAccessors.getString p.m_prod "aliases"

/-- `Product::getRelease`. -/
def getRelease (p : Product) : Except JsonError String :=
  JsonAccessors.getString p.m_prod "release"

/-- `Product::getReleaseTitle`. -/
def getReleaseTitle (p : Product) : Except JsonError String :=
  JsonAccessors.getString p.m_prod "release_title"

/-- `Product::getVersion`. -/
def getVersion (p : Product) : Except JsonError String :=
  JsonAccessors.getString p.m_prod "version"

/-- `Product::getRevisionObject`: read the "versions" object; when the
requested revision is the empty (defaulted) string, use the last member
name; then read that member as an object. -/
def getRevisionObject (p : Product) (revision : String) : Except JsonError Json := do
  let versions ← JsonAccessors.getObject p.m_prod "versions"
  let rev ← if revision = "" then JsonAccessors.getLastMemberName versions else pure revision
  JsonAccessors.getObject versions rev

/-- `Product::getPubname` (the defaulted revision argument is passed as
`""`). -/
def getPubname (p : Product) (rev : String) : Except JsonError String := do
  let revision ← p.getRevisionObject rev
  JsonAccessors.getString revision "pubname"

/-- `Product::getImageInfo` (the defaulted revision argument is passed as
`""`). -/
def getImageInfo (p : Product) (rev : String) : Except JsonError String := do
  let revision ← p.getRevisionObject rev
  let items ← JsonAccessors.getObject revision "items"
  let image ← JsonAccessors.getObject items IMAGE_TAG
  JsonAccessors.getString image INFO_TAG

/-- `Product(Json::nullValue)`: the empty product returned when a scan finds
no match. -/
def empty : Product :=
  ⟨.null⟩

end Product

namespace Simplestream

/-- `Simplestream::Simplestream(document)`: the constructor parses the text
with the external `Json::Reader` (modelled by its result: either a formatted
error message or the parsed root) and throws only when parsing fails. The
root is stored unexamined. -/
def construct (parsed : Except String Json) : Except JsonError Json :=
  match parsed with
  | .error msg => .error (.parseError msg)
  | .ok root => .ok root

/-- The loop body of `Simplestream::getProducts`: look up each filtered
member name as an object, building the product list in order (the first
failing lookup aborts the loop, as the thrown exception does). -/
def getProductsGo (products : Json) : List String → Except JsonError (List Product)
  | [] => .ok []
  | prodName :: rest => do
    let v ← JsonAccessors.getObject products prodName
    let tail ← getProductsGo products rest
    pure (Product.mk v :: tail)

/-- `Simplestream::getProducts`: read the "products" object of the root and
enumerate, in member order, the members whose name ends with `ARCH_NAME`. -/
def getProducts (m_root : Json) : Except JsonError (List Product) := do
  let products ← JsonAccessors.getObject m_root "products"
  let productNames := products.getMemberNames.filter (fun prodName => strEndsWith prodName ARCH_NAME)
  getProductsGo products productNames

/-- The loop of `Simplestream::getSupportedProducts`: keep the products
whose `getSupported` read is true, failing on the first read that throws. -/
def getSupportedGo : List Product → Except JsonError (List Product)
  | [] => .ok []
  | prod :: rest => do
    let b ← prod.getSupported
    let tail ← getSupportedGo rest
    pure (if b then prod :: tail else tail)

/-- `Simplestream::getSupportedProducts`. -/
def getSupportedProducts (m_root : Json) : Except JsonError (List Product) := do
  let prods ← getProducts m_root
  getSupportedGo prods

/-- The loop of `Simplestream::getCurrentProduct`: return the first product
whose raw alias string contains "default" as a substring
(`aliases.find("default") != npos`); the empty product when none does. -/
def getCurrentGo : List Product → Except JsonError Product
  | [] => .ok Product.empty
  | prod :: rest => do
    let aliases ← prod.getAliases
    if containsSubstr aliases "default" then .ok prod
    else getCurrentGo rest

/-- `Simplestream::getCurrentProduct`. -/
def getCurrentProduct (m_root : Json) : Except JsonError Product := do
  let prods ← getProducts m_root
  getCurrentGo prods

/-- The loop of `Simplestream::findProduct`: for each product in order,
split its alias string on commas, drop tokens equal to "lts", and return
the product when the release equals one of the remaining tokens; otherwise
return it when the release contains the product's version as a substring
(`release.find(version) != npos`); else continue. The empty product when
the scan finds nothing. -/
def findProductGo (release : String) : List Product → Except JsonError Product
  | [] => .ok Product.empty
  | prod :: rest => do
    let aliasStr ← prod.getAliases
    let aliases := (splitOnCommas aliasStr).filter (fun a => a != "lts")
    if aliases.contains release then .ok prod
    else do
      let version ← prod.getVersion
      if containsSubstr release version then .ok prod
      else findProductGo release rest

/-- `Simplestream::findProduct`. -/
def findProduct (m_root : Json) (release : String) : Except JsonError Product := do
  let prods ← getProducts m_root
  findProductGo release prods

end Simplestream

/-- The per-product match criterion of `findProduct`, as a pure predicate:
the release equals a non-"lts" comma token of `aliases`, or it contains
`version` as a substring. It evaluates to `false` when a needed field read
fails (there the monadic scan fails instead; the theorems that use this
predicate assume those reads succeed). -/
def releaseMatches (release : String) (p : Product) : Bool :=
  match p.getAliases with
  | .error _ => false
  | .ok aliasStr =>
    ((splitOnCommas aliasStr).filter (fun a => a != "lts")).contains release ||
      match p.getVersion with
      | .ok v => containsSubstr release v
      | .error _ => false

/-- The per-product criterion of `getCurrentProduct`, as a pure predicate:
the raw alias string contains "default" as a substring. `false` when the
alias read fails. -/
def aliasHasDefault (p : Product) : Bool :=
  match p.getAliases with
  | .ok aliasStr => containsSubstr aliasStr "default"
  | .error _ => false

/-- The per-product criterion of `getSupportedProducts`, as a pure
predicate: the "supported" field reads as `true`. `false` when the read
fails. -/
def supportedTrue (p : Product) : Bool :=
  match p.getSupported with
  | .ok b => b
  | .error _ => false

/-- First sample revision object of `prodA`. -/
def revA1 : Json := .obj [("pubname", .str "pa-1"),
  ("items", .obj [("disk1.img", .obj [("sha256", .str "aaa")])])]

/-- Second (last) sample revision object of `prodA`. -/
def revA2 : Json := .obj [("pubname", .str "pa-2"),
  ("items", .obj [("disk1.img", .obj [("sha256", .str "bbb")])])]

/-- Sample product node used by the concrete witnesses: two revisions, the
later one carrying a distinct pubname and checksum. -/
def prodA : Json := .obj [
  ("aliases", .str "focal,lts"),
  ("release", .str "focal"),
  ("release_title", .str "20.04 LTS"),
  ("supported", .bool true),
  ("version", .str "4"),
  ("versions", .obj [("r1", revA1), ("r2", revA2)])]

/-- Sample product node used by the concrete witnesses: its alias list
contains "default" and the exact token "24.04". -/
def prodB : Json := .obj [
  ("aliases", .str "noble,default,24.04"),
  ("release", .str "noble"),
  ("release_title", .str "24.04 LTS"),
  ("supported", .bool false),
  ("version", .str "24.04"),
  ("versions", .obj [("r1", .obj [("pubname", .str "pb-1")])])]

/-- Sample catalog document used by the concrete witnesses; the third
member's key does not end in the architecture suffix. -/
def sampleRoot : Json := .obj [
  ("products", .obj [("a-amd64", prodA), ("b-amd64", prodB), ("c-arm64", .null)])]

/-- Sample product whose "versions" object has no members. -/
def emptyVersionsProd : Product := ⟨.obj [("versions", .obj [])]⟩


/-- Sample product whose "version" field is the empty string. -/
def prodV : Json := .obj [("aliases", .str "edge"), ("version", .str "")]

/-- Sample catalog whose second enumerated product has an empty version. -/
def rootV : Json := .obj [("products", .obj [("a-amd64", prodA), ("v-amd64", prodV)])]

/-- Sample product lacking the "supported" field. -/
def prodBroken : Json := .obj [("aliases", .str "x")]

/-- Sample catalog whose second enumerated product lacks "supported". -/
def rootBroken : Json := .obj [("products", .obj [("a-amd64", prodA), ("z-amd64", prodBroken)])]

/-- Bind on `Except` propagates an ok value. -/
theorem ebind_ok {α β : Type} (a : α) (f : α → Except JsonError β) :
    (Except.ok a >>= f) = f a := rfl

/-- Bind on `Except` propagates an error. -/
theorem ebind_error {α β : Type} (err : JsonError) (f : α → Except JsonError β) :
    ((Except.error err : Except JsonError α) >>= f) = .error err := rfl

/-- An `Except` value with `isOk` holds some ok payload. -/
theorem exists_ok_of_isOk {ε α : Type} {e : Except ε α} (h : e.isOk = true) :
    ∃ a, e = .ok a := by
  cases e with
  | ok a => exact ⟨a, rfl⟩
  | error err => simp [Except.isOk, Except.toBool] at h

/-- In an association list with distinct keys, `find?` on a member's key
returns exactly that member. -/
theorem find?_key_of_mem {ms : List (String × Json)} {k : String} {v : Json}
    (hnd : (ms.map Prod.fst).Nodup) (hmem : (k, v) ∈ ms) :
    ms.find? (fun kv => kv.1 == k) = some (k, v) := by
  induction ms with
  | nil => simp at hmem
  | cons hd tl ih =>
    simp only [List.map_cons, List.nodup_cons] at hnd
    rcases List.mem_cons.mp hmem with h | h
    · rw [← h]
      simp [List.find?]
    · have hk : k ∈ tl.map Prod.fst := List.mem_map_of_mem Prod.fst h
      have hne : (hd.1 == k) = false := by
        by_contra hcon
        have heq : hd.1 = k := by simpa using hcon
        exact hnd.1 (heq ▸ hk)
      simp only [List.find?, hne]
      exact ih hnd.2 h

/-- Indexing an object at a member's key (keys distinct) yields its value. -/
theorem index_obj_of_mem {ms : List (String × Json)} {k : String} {v : Json}
    (hnd : (ms.map Prod.fst).Nodup) (hmem : (k, v) ∈ ms) :
    Json.index (.obj ms) k = v := by
  simp only [Json.index]
  rw [find?_key_of_mem hnd hmem]

/-- Indexing an object at an absent key yields null. -/
theorem index_obj_of_not_mem {ms : List (String × Json)} {k : String}
    (h : k ∉ ms.map Prod.fst) :
    Json.index (.obj ms) k = .null := by
  simp only [Json.index]
  have hnone : ms.find? (fun kv => kv.1 == k) = none := by
    rw [List.find?_eq_none]
    intro kv hkv hbeq
    exact h (List.mem_map.mpr ⟨kv, hkv, eq_of_beq hbeq⟩)
  rw [hnone]

/-- `getObject` succeeds exactly on the indexed value when that value is an
object. -/
theorem getObject_ok {v w : Json} {k : String}
    (h : v.index k = w) (hw : w.isObject = true) :
    JsonAccessors.getObject v k = .ok w := by
  simp [JsonAccessors.getObject, h, hw]

/-- `getObject` fails with the "not an object" error when the indexed value
is not an object. -/
theorem getObject_err {v : Json} {k : String}
    (h : (v.index k).isObject = false) :
    JsonAccessors.getObject v k = .error (.notAnObject k) := by
  simp [JsonAccessors.getObject, h]

/-- The empty pattern occurs in every character list. -/
theorem charsInfix_nil : ∀ l : List Char, charsInfix [] l = true
  | [] => rfl
  | _ :: rest => by simp [charsInfix, List.isPrefixOf, charsInfix_nil rest]

/-- `containsSubstr` is vacuously true for the empty pattern, exactly as
`release.find("") != npos` always holds. -/
theorem containsSubstr_empty (s : String) : containsSubstr s "" = true :=
  charsInfix_nil s.data

/-- The `findProduct` loop is a single left-to-right first-match scan for
`releaseMatches`, provided each scanned product's alias and version reads
succeed; it yields the empty product when nothing matches. -/
theorem findProductGo_eq_find? (release : String) :
    ∀ ps : List Product,
      (∀ p ∈ ps, (p.getAliases).isOk = true ∧ (p.getVersion).isOk = true) →
      Simplestream.findProductGo release ps =
        .ok ((ps.find? (releaseMatches release)).getD Product.empty) := by
  intro ps
  induction ps with
  | nil => intro _; rfl
  | cons p rest ih =>
    intro h
    obtain ⟨ha, hv⟩ := h p (List.mem_cons_self p rest)
    obtain ⟨a, haa⟩ := exists_ok_of_isOk ha
    obtain ⟨v, hvv⟩ := exists_ok_of_isOk hv
    have hrest : ∀ q ∈ rest, (q.getAliases).isOk = true ∧ (q.getVersion).isOk = true :=
      fun q hq => h q (List.mem_cons_of_mem p hq)
    have hmatch : releaseMatches release p =
        (((splitOnCommas a).filter (fun x => x != "lts")).contains release ||
          containsSubstr release v) := by
      simp [releaseMatches, haa, hvv]
    have step : Simplestream.findProductGo release (p :: rest) =
        if ((splitOnCommas a).filter (fun x => x != "lts")).contains release = true then .ok p
        else if containsSubstr release v = true then .ok p
        else Simplestream.findProductGo release rest := by
      simp only [Simplestream.findProductGo, haa, hvv, ebind_ok]
    cases hc : ((splitOnCommas a).filter (fun x => x != "lts")).contains release with
    | true =>
      have hm : releaseMatches release p = true := by rw [hmatch, hc]; rfl
      rw [step, if_pos hc, List.find?_cons_of_pos rest hm, Option.getD_some]
    | false =>
      cases hs : containsSubstr release v with
      | true =>
        have hm : releaseMatches release p = true := by rw [hmatch, hc, hs]; rfl
        rw [step, if_neg (by rw [hc]; exact Bool.false_ne_true), if_pos hs, List.find?_cons_of_pos rest hm,
          Option.getD_some]
      | false =>
        have hm : ¬releaseMatches release p = true := by rw [hmatch, hc, hs]; simp
        rw [step, if_neg (by rw [hc]; exact Bool.false_ne_true), if_neg (by rw [hs]; exact Bool.false_ne_true),
          List.find?_cons_of_neg rest hm, ih hrest]

/-- C1: for every catalog document and release token, `findProduct` scans
the enumerated products in one left-to-right pass, testing each product
against the combined criterion `releaseMatches` (exact non-"lts" alias
token match, or the token containing the version as a substring), returns
the first hit, and returns the empty product when nothing matches. Since
the scan is a single `find?` over the combined criterion, an earlier
product matching only by version substring wins over a later product with
an exact alias match. -/
theorem findProduct_first_match (root : Json) (release : String) (ps : List Product)
    (hps : Simplestream.getProducts root = .ok ps)
    (hok : ∀ p ∈ ps, (p.getAliases).isOk = true ∧ (p.getVersion).isOk = true) :
    Simplestream.findProduct root release =
      .ok ((ps.find? (releaseMatches release)).getD Product.empty) := by
  simp only [Simplestream.findProduct, hps, ebind_ok]
  exact findProductGo_eq_find? release ps hok

/-- C1 witness: on the sample catalog, the token "24.04" is an exact alias
of the later product `prodB` but contains the version "4" of the earlier
product `prodA`; the single-pass scan returns `prodA`. -/
theorem findProduct_first_match_witness :
    Simplestream.findProduct sampleRoot "24.04" = .ok (Product.mk prodA) := by
  have h := findProduct_first_match sampleRoot "24.04"
    [Product.mk prodA, Product.mk prodB] rfl (by decide)
  rw [h]
  rfl

/-- Skipping lemma for the `findProduct` loop: products before `p` that
read fine and fail the match criterion are passed over, and `p` itself is
returned as soon as its own criterion holds; an empty version makes the
substring criterion hold vacuously. -/
theorem findProductGo_skip (release : String) (p : Product) (ps₂ : List Product)
    (ha : (p.getAliases).isOk = true) (hv : p.getVersion = .ok "") :
    ∀ ps₁ : List Product,
      (∀ q ∈ ps₁, (q.getAliases).isOk = true ∧ (q.getVersion).isOk = true ∧
        releaseMatches release q = false) →
      Simplestream.findProductGo release (ps₁ ++ p :: ps₂) = .ok p := by
  intro ps₁
  induction ps₁ with
  | nil =>
    intro _
    obtain ⟨a, haa⟩ := exists_ok_of_isOk ha
    have step : Simplestream.findProductGo release (p :: ps₂) =
        if ((splitOnCommas a).filter (fun x => x != "lts")).contains release = true then .ok p
        else if containsSubstr release "" = true then .ok p
        else Simplestream.findProductGo release ps₂ := by
      simp only [Simplestream.findProductGo, haa, hv, ebind_ok]
    rw [List.nil_append, step]
    cases hc : ((splitOnCommas a).filter (fun x => x != "lts")).contains release with
    | true => rw [if_pos rfl]
    | false =>
      rw [if_neg Bool.false_ne_true, if_pos (containsSubstr_empty release)]
  | cons q rest ih =>
    intro h
    obtain ⟨hqa, hqv, hqm⟩ := h q (List.mem_cons_self q rest)
    obtain ⟨aq, haq⟩ := exists_ok_of_isOk hqa
    obtain ⟨vq, hvq⟩ := exists_ok_of_isOk hqv
    have hqm2 : (((splitOnCommas aq).filter (fun x => x != "lts")).contains release ||
        containsSubstr release vq) = false := by
      rw [← hqm]
      simp [releaseMatches, haq, hvq]
    rw [Bool.or_eq_false_iff] at hqm2
    have step : Simplestream.findProductGo release (q :: (rest ++ p :: ps₂)) =
        if ((splitOnCommas aq).filter (fun x => x != "lts")).contains release = true then .ok q
        else if containsSubstr release vq = true then .ok q
        else Simplestream.findProductGo release (rest ++ p :: ps₂) := by
      simp only [Simplestream.findProductGo, haq, hvq, ebind_ok]
    rw [List.cons_append, step, if_neg (by rw [hqm2.1]; exact Bool.false_ne_true),
      if_neg (by rw [hqm2.2]; exact Bool.false_ne_true)]
    exact ih (fun r hr => h r (List.mem_cons_of_mem q hr))

/-- C10: when an enumerated product's "version" field is the empty string,
the substring criterion `release.find(version) != npos` holds vacuously, so
`findProduct` returns that product for any release token, provided the
products enumerated before it read fine and fail the match criterion. -/
theorem findProduct_empty_version (root : Json) (release : String)
    (ps₁ ps₂ : List Product) (p : Product)
    (hps : Simplestream.getProducts root = .ok (ps₁ ++ p :: ps₂))
    (hskip : ∀ q ∈ ps₁, (q.getAliases).isOk = true ∧ (q.getVersion).isOk = true ∧
      releaseMatches release q = false)
    (ha : (p.getAliases).isOk = true) (hv : p.getVersion = .ok "") :
    Simplestream.findProduct root release = .ok p := by
  simp only [Simplestream.findProduct, hps, ebind_ok]
  exact findProductGo_skip release p ps₂ ha hv ps₁ hskip

/-- C10 witness: in `rootV` the second product's version is the empty
string; the arbitrary token "anything" matches nothing about the first
product yet selects the second. -/
theorem findProduct_empty_version_witness :
    Simplestream.findProduct rootV "anything" = .ok (Product.mk prodV) :=
  findProduct_empty_version rootV "anything" [Product.mk prodA] [] (Product.mk prodV)
    rfl (by decide) (by decide) rfl

/-- The `getCurrentProduct` loop is a first-match scan for
`aliasHasDefault`, provided each scanned product's alias read succeeds. -/
theorem getCurrentGo_eq_find? :
    ∀ ps : List Product, (∀ p ∈ ps, (p.getAliases).isOk = true) →
      Simplestream.getCurrentGo ps = .ok ((ps.find? aliasHasDefault).getD Product.empty) := by
  intro ps
  induction ps with
  | nil => intro _; rfl
  | cons p rest ih =>
    intro h
    obtain ⟨a, haa⟩ := exists_ok_of_isOk (h p (List.mem_cons_self p rest))
    have hm : aliasHasDefault p = containsSubstr a "default" := by
      simp [aliasHasDefault, haa]
    have step : Simplestream.getCurrentGo (p :: rest) =
        if containsSubstr a "default" = true then .ok p
        else Simplestream.getCurrentGo rest := by
      simp only [Simplestream.getCurrentGo, haa, ebind_ok]
    cases hc : containsSubstr a "default" with
    | true =>
      rw [step, if_pos hc, List.find?_cons_of_pos rest (by rw [hm, hc]), Option.getD_some]
    | false =>
      rw [step, if_neg (by rw [hc]; exact Bool.false_ne_true),
        List.find?_cons_of_neg rest (by rw [hm, hc]; exact Bool.false_ne_true),
        ih (fun q hq => h q (List.mem_cons_of_mem p hq))]

/-- C2: `getCurrentProduct` returns the first enumerated product, in member
order, whose raw alias string contains "default" as a substring (no
tokenisation), and returns the empty product, as an ok (non-error) result,
exactly when no enumerated product's alias string does. -/
theorem getCurrentProduct_default (root : Json) (ps : List Product)
    (hps : Simplestream.getProducts root = .ok ps)
    (hok : ∀ p ∈ ps, (p.getAliases).isOk = true) :
    Simplestream.getCurrentProduct root =
      .ok ((ps.find? aliasHasDefault).getD Product.empty)
    ∧ (Simplestream.getCurrentProduct root = .ok Product.empty ↔
        ∀ p ∈ ps, aliasHasDefault p = false) := by
  have hmain : Simplestream.getCurrentProduct root =
      .ok ((ps.find? aliasHasDefault).getD Product.empty) := by
    simp only [Simplestream.getCurrentProduct, hps, ebind_ok]
    exact getCurrentGo_eq_find? ps hok
  refine ⟨hmain, ?_, ?_⟩
  · intro hempty
    rw [hmain] at hempty
    have hgd : (ps.find? aliasHasDefault).getD Product.empty = Product.empty := by
      injection hempty
    cases hfd : ps.find? aliasHasDefault with
    | none =>
      intro p hp
      exact Bool.eq_false_iff.mpr (List.find?_eq_none.mp hfd p hp)
    | some q =>
      have hq : aliasHasDefault q = true := List.find?_some hfd
      rw [hfd, Option.getD_some] at hgd
      rw [hgd] at hq
      exact absurd hq (by decide)
  · intro hall
    rw [hmain]
    have hnone : ps.find? aliasHasDefault = none :=
      List.find?_eq_none.mpr (fun p hp => by rw [hall p hp]; exact Bool.false_ne_true)
    rw [hnone]
    rfl

/-- C2 witness: in the sample catalog only the second product's alias
string contains "default", and it is returned. -/
theorem getCurrentProduct_default_witness :
    Simplestream.getCurrentProduct sampleRoot = .ok (Product.mk prodB) := by
  have h := getCurrentProduct_default sampleRoot [Product.mk prodA, Product.mk prodB]
    rfl (by decide)
  rw [h.1]
  rfl

/-- The `getSupportedProducts` loop keeps, in order, exactly the products
whose "supported" field reads as true, provided every read succeeds. -/
theorem getSupportedGo_ok :
    ∀ ps : List Product, (∀ p ∈ ps, (p.getSupported).isOk = true) →
      Simplestream.getSupportedGo ps = .ok (ps.filter supportedTrue) := by
  intro ps
  induction ps with
  | nil => intro _; rfl
  | cons p rest ih =>
    intro h
    obtain ⟨b, hb⟩ := exists_ok_of_isOk (h p (List.mem_cons_self p rest))
    have hrec := ih (fun q hq => h q (List.mem_cons_of_mem p hq))
    have hsp : supportedTrue p = b := by simp [supportedTrue, hb]
    have step : Simplestream.getSupportedGo (p :: rest) = (do
        let tail ← Simplestream.getSupportedGo rest
        pure (if b then p :: tail else tail)) := by
      simp only [Simplestream.getSupportedGo, hb, ebind_ok]
    rw [step, hrec, ebind_ok]
    cases hbv : b with
    | true =>
      subst hbv
      rw [if_pos rfl, List.filter_cons, if_pos hsp]
      rfl
    | false =>
      subst hbv
      rw [if_neg Bool.false_ne_true, List.filter_cons,
        if_neg (by rw [hsp]; exact Bool.false_ne_true)]
      rfl

/-- The `getSupportedProducts` loop aborts with the first "supported" read
failure, after any earlier products read fine. -/
theorem getSupportedGo_err (p : Product) (e : JsonError) (ps₂ : List Product)
    (hp : p.getSupported = .error e) :
    ∀ ps₁ : List Product, (∀ q ∈ ps₁, (q.getSupported).isOk = true) →
      Simplestream.getSupportedGo (ps₁ ++ p :: ps₂) = .error e := by
  intro ps₁
  induction ps₁ with
  | nil =>
    intro _
    simp only [List.nil_append, Simplestream.getSupportedGo, hp, ebind_error]
  | cons q rest ih =>
    intro h
    obtain ⟨b, hb⟩ := exists_ok_of_isOk (h q (List.mem_cons_self q rest))
    rw [List.cons_append]
    simp only [Simplestream.getSupportedGo, hb, ebind_ok,
      ih (fun r hr => h r (List.mem_cons_of_mem q hr)), ebind_error]

/-- C6: `getSupportedProducts` is exactly the order-preserving filter of
`getProducts` by a true "supported" field, and a failing "supported" read
on any enumerated product (the earlier ones reading fine) fails the whole
operation with that error instead of skipping the product. -/
theorem getSupportedProducts_filter (root : Json) (ps : List Product)
    (hps : Simplestream.getProducts root = .ok ps) :
    ((∀ p ∈ ps, (p.getSupported).isOk = true) →
      Simplestream.getSupportedProducts root = .ok (ps.filter supportedTrue))
    ∧ (∀ ps₁ p ps₂ e, ps = ps₁ ++ p :: ps₂ →
        (∀ q ∈ ps₁, (q.getSupported).isOk = true) → p.getSupported = .error e →
        Simplestream.getSupportedProducts root = .error e) := by
  constructor
  · intro hok
    simp only [Simplestream.getSupportedProducts, hps, ebind_ok]
    exact getSupportedGo_ok ps hok
  · intro ps₁ p ps₂ e hsplit hok hp
    simp only [Simplestream.getSupportedProducts, hps, ebind_ok, hsplit]
    exact getSupportedGo_err p e ps₂ hp ps₁ hok

/-- C6 witness: on the sample catalog exactly the first product is
supported; on the catalog whose second product lacks "supported" the whole
operation fails with that product's read error. -/
theorem getSupportedProducts_filter_witness :
    Simplestream.getSupportedProducts sampleRoot = .ok [Product.mk prodA]
    ∧ Simplestream.getSupportedProducts rootBroken = .error (.notABoolean "supported") := by
  constructor
  · have h := (getSupportedProducts_filter sampleRoot
      [Product.mk prodA, Product.mk prodB] rfl).1 (by decide)
    rw [h]
    rfl
  · exact (getSupportedProducts_filter rootBroken
      [Product.mk prodA, Product.mk prodBroken] rfl).2
      [Product.mk prodA] (Product.mk prodBroken) [] (.notABoolean "supported")
      rfl (by decide) rfl

/-- Filtering an association list's keys filters its entries. -/
theorem map_fst_filter (p : String → Bool) :
    ∀ ms : List (String × Json),
      (ms.map Prod.fst).filter p = (ms.filter (fun kv => p kv.1)).map Prod.fst := by
  intro ms
  induction ms with
  | nil => rfl
  | cons kv rest ih =>
    simp only [List.map_cons, List.filter_cons]
    cases hp : p kv.1 with
    | true => simp [hp, ih]
    | false => simp [hp, ih]

/-- The `getProducts` loop, run over the keys of a sublist of a
distinct-keyed object whose values are objects, wraps exactly those values
in order. -/
theorem getProductsGo_ok (ms : List (String × Json))
    (hnd : (ms.map Prod.fst).Nodup) :
    ∀ l : List (String × Json),
      (∀ kv ∈ l, kv ∈ ms) → (∀ kv ∈ l, kv.2.isObject = true) →
      Simplestream.getProductsGo (.obj ms) (l.map Prod.fst) =
        .ok (l.map (fun kv => Product.mk kv.2)) := by
  intro l
  induction l with
  | nil => intro _ _; rfl
  | cons kv rest ih =>
    intro hsub hobj
    have hidx : Json.index (.obj ms) kv.1 = kv.2 :=
      index_obj_of_mem hnd (hsub kv (List.mem_cons_self kv rest))
    have hobj1 := hobj kv (List.mem_cons_self kv rest)
    simp only [List.map_cons, Simplestream.getProductsGo,
      getObject_ok hidx hobj1, ebind_ok,
      ih (fun x hx => hsub x (List.mem_cons_of_mem kv hx))
        (fun x hx => hobj x (List.mem_cons_of_mem kv hx))]
    rfl

/-- C5: when the root's "products" member is an object with distinct keys
whose architecture-matching members are objects, `getProducts` returns
exactly the members whose key ends with the architecture suffix — each
matching member included, every other member excluded — as product views
in member order. -/
theorem getProducts_arch_filter (root : Json) (ms : List (String × Json))
    (hprod : Json.index root "products" = .obj ms)
    (hnd : (ms.map Prod.fst).Nodup)
    (hobj : ∀ kv ∈ ms, strEndsWith kv.1 ARCH_NAME = true → kv.2.isObject = true) :
    Simplestream.getProducts root =
      .ok ((ms.filter (fun kv => strEndsWith kv.1 ARCH_NAME)).map
        (fun kv => Product.mk kv.2)) := by
  have hop : JsonAccessors.getObject root "products" = .ok (.obj ms) :=
    getObject_ok hprod rfl
  simp only [Simplestream.getProducts, hop, ebind_ok]
  have hnames : (Json.obj ms).getMemberNames = ms.map Prod.fst := rfl
  rw [hnames, map_fst_filter]
  apply getProductsGo_ok ms hnd
  · exact fun kv hkv => List.mem_of_mem_filter hkv
  · intro kv hkv
    have hp2 : strEndsWith kv.1 ARCH_NAME = true := by
      simpa using List.of_mem_filter hkv
    exact hobj kv (List.mem_of_mem_filter hkv) hp2

/-- C5 witness: of the three members of the sample catalog's "products"
object, the two with keys ending in "amd64" are returned in order and the
"c-arm64" member is excluded. -/
theorem getProducts_arch_filter_witness :
    Simplestream.getProducts sampleRoot = .ok [Product.mk prodA, Product.mk prodB] := by
  have h := getProducts_arch_filter sampleRoot
    [("a-amd64", prodA), ("b-amd64", prodB), ("c-arm64", Json.null)]
    rfl (by decide) (by decide)
  rw [h]
  rfl

/-- C3 counterexample: the document `{}` parses successfully and lacks
"products", yet constructing the catalog from it succeeds — no error of any
kind, in particular no `MissingField`, is raised at construction time; the
absence only surfaces when `getProducts` runs, and then as the
type-mismatch error "products is not an object". -/
theorem construct_no_products_check :
    Simplestream.construct (.ok (Json.obj [])) = .ok (Json.obj [])
    ∧ Simplestream.getProducts (Json.obj []) = .error (.notAnObject "products") :=
  ⟨rfl, rfl⟩

/-- C3 amended: for every successfully parsed document whose "products"
member is not an object (in particular absent, which indexes to null),
construction succeeds, and the failure is detected only when a query runs
`getProducts`, which fails with the type-mismatch error
"products is not an object" rather than a `MissingField` error. -/
theorem missing_products_query_error (root : Json)
    (h : (Json.index root "products").isObject = false) :
    Simplestream.construct (.ok root) = .ok root
    ∧ Simplestream.getProducts root = .error (.notAnObject "products") := by
  refine ⟨rfl, ?_⟩
  simp only [Simplestream.getProducts, getObject_err h, ebind_error]

/-- C3 amended witness: a parsed document with a single unrelated member
constructs fine and fails only at `getProducts`. -/
theorem missing_products_query_error_witness :
    Simplestream.construct (.ok (Json.obj [("foo", Json.str "bar")])) =
      .ok (Json.obj [("foo", Json.str "bar")])
    ∧ Simplestream.getProducts (Json.obj [("foo", Json.str "bar")]) =
      .error (.notAnObject "products") :=
  missing_products_query_error (Json.obj [("foo", Json.str "bar")]) (by decide)

/-- Bind on `Except` after `pure` applies the continuation. -/
theorem epure_bind {α β : Type} (a : α) (f : α → Except JsonError β) :
    ((pure a : Except JsonError α) >>= f) = f a := rfl

/-- The value reported by `getLast?` is a member of the list. -/
theorem mem_of_getLast? {α : Type} {l : List α} {a : α}
    (h : l.getLast? = some a) : a ∈ l := by
  induction l with
  | nil => simp [List.getLast?] at h
  | cons x rest ih =>
    cases rest with
    | nil =>
      rw [List.getLast?_singleton] at h
      rw [← Option.some_inj.mp h]
      exact List.mem_cons_self x []
    | cons y t =>
      rw [List.getLast?_cons_cons] at h
      exact List.mem_cons_of_mem x (ih h)

/-- C4 counterexample: asking `getPubname` for an explicitly named revision
that is absent from "versions" fails with the type-mismatch error
"zzz is not an object" — the absent key indexes to null — and that error is
not the spec's `MissingField` kind. -/
theorem getPubname_absent_revision_not_missing_field :
    (Product.mk prodA).getPubname "zzz" = .error (.notAnObject "zzz")
    ∧ (JsonError.notAnObject "zzz").isMissingField = false :=
  ⟨rfl, rfl⟩

/-- C4 amended: with "versions" an object of distinct keys, omitting the
revision key resolves to the last member in member order; an explicit key
resolves to exactly that member; an explicit absent key fails with the
type-mismatch error "`<key>` is not an object" (the absent key indexes to
null), not with `MissingField`; and an empty "versions" object with no
explicit key fails `getPubname`/`getImageInfo` with the `EmptyCollection`
error "object has no members". -/
theorem revision_resolution (p : Product) (vs : List (String × Json))
    (hv : Json.index p.m_prod "versions" = .obj vs)
    (hnd : (vs.map Prod.fst).Nodup) :
    (∀ k v, vs.getLast? = some (k, v) → v.isObject = true →
      p.getRevisionObject "" = .ok v)
    ∧ (∀ r v, r ≠ "" → (r, v) ∈ vs → v.isObject = true →
      p.getRevisionObject r = .ok v)
    ∧ (∀ r, r ≠ "" → r ∉ vs.map Prod.fst →
      p.getRevisionObject r = .error (.notAnObject r))
    ∧ (vs = [] → p.getPubname "" = .error .noMembers
        ∧ p.getImageInfo "" = .error .noMembers)
    ∧ (∀ r, p.getPubname r =
        (p.getRevisionObject r >>= fun rev => JsonAccessors.getString rev "pubname")) := by
  have hvo : JsonAccessors.getObject p.m_prod "versions" = .ok (.obj vs) :=
    getObject_ok hv rfl
  refine ⟨?_, ?_, ?_, ?_, fun r => rfl⟩
  · intro k v hlast hobj
    have hl : (Json.obj vs).getMemberNames.getLast? = some k := by
      show (vs.map Prod.fst).getLast? = some k
      rw [List.getLast?_map, hlast]
      rfl
    have hlm : JsonAccessors.getLastMemberName (.obj vs) = .ok k := by
      simp [JsonAccessors.getLastMemberName, hl]
    simp only [Product.getRevisionObject, hvo, ebind_ok]
    rw [if_pos trivial]
    simp only [hlm, ebind_ok]
    exact getObject_ok (index_obj_of_mem hnd (mem_of_getLast? hlast)) hobj
  · intro r v hr hmem hobj
    simp only [Product.getRevisionObject, hvo, ebind_ok]
    rw [if_neg hr, epure_bind]
    exact getObject_ok (index_obj_of_mem hnd hmem) hobj
  · intro r hr habs
    simp only [Product.getRevisionObject, hvo, ebind_ok]
    rw [if_neg hr, epure_bind]
    exact getObject_err (by rw [index_obj_of_not_mem habs]; rfl)
  · intro hvs
    subst hvs
    have hrev : p.getRevisionObject "" = .error .noMembers := by
      simp only [Product.getRevisionObject, hvo, ebind_ok]
      rw [if_pos trivial]
      rfl
    exact ⟨by simp only [Product.getPubname, hrev, ebind_error],
      by simp only [Product.getImageInfo, hrev, ebind_error]⟩

/-- C4 witness: on `prodA`'s two-revision "versions" object, omitting the
key resolves to the last revision `revA2`, the absent key "zzz" fails with
"zzz is not an object", and the product with an empty "versions" object
fails `getPubname` with "object has no members". -/
theorem revision_resolution_witness :
    (Product.mk prodA).getRevisionObject "" = .ok revA2
    ∧ (Product.mk prodA).getRevisionObject "zzz" = .error (.notAnObject "zzz")
    ∧ emptyVersionsProd.getPubname "" = .error .noMembers := by
  have h := revision_resolution (Product.mk prodA) [("r1", revA1), ("r2", revA2)]
    rfl (by decide)
  have h2 := revision_resolution emptyVersionsProd [] rfl (by decide)
  exact ⟨h.1 "r2" revA2 rfl rfl, h.2.2.1 "zzz" (by decide) (by decide),
    (h2.2.2.2.1 rfl).1⟩

/-- C7 counterexample: a getter on the empty (null-node) product fails with
the type-mismatch error "supported is not a boolean" — the error names the
field being read, and it is not the spec's `MissingField` kind on the
implicit root key. -/
theorem empty_product_getter_error_kind :
    Product.empty.getSupported = .error (.notABoolean "supported")
    ∧ (JsonError.notABoolean "supported").isMissingField = false :=
  ⟨rfl, rfl⟩

/-- C7 amended: every getter of the empty product (the one wrapping the
null node, which is also what indexing an absent key produces) fails
deterministically — no crash, no garbage value — with the type-mismatch
error naming the first field the getter reads on the null node. -/
theorem empty_product_getters_fail :
    Product.empty.getSupported = .error (.notABoolean "supported")
    ∧ Product.empty.getAliases = .error (.notAString "aliases")
    ∧ Product.empty.getRelease = .error (.notAString "release")
    ∧ Product.empty.getReleaseTitle = .error (.notAString "release_title")
    ∧ Product.empty.getVersion = .error (.notAString "version")
    ∧ (∀ rev, Product.empty.getPubname rev = .error (.notAnObject "versions"))
    ∧ (∀ rev, Product.empty.getImageInfo rev = .error (.notAnObject "versions")) :=
  ⟨rfl, rfl, rfl, rfl, rfl, fun _ => rfl, fun _ => rfl⟩

/-- C8 counterexample: a product wrapping a string node — which is not an
object — still converts to true, so validity is not equivalent to wrapping
a non-null object node. -/
theorem isValid_true_on_non_object :
    (Product.mk (Json.str "hello")).isValid = true
    ∧ (Json.str "hello").isObject = false :=
  ⟨rfl, rfl⟩

/-- C8 amended: a product over node `n` is valid — its boolean conversion
`!!m_prod` is true — exactly when `n` is not the null node, whether or not
`n` is an object. -/
theorem isValid_iff_not_null (n : Json) :
    (Product.mk n).isValid = true ↔ n ≠ Json.null := by
  cases n <;> simp [Product.isValid, Json.isNull]

/-- C9: the field accessors cannot tell an absent key from a present key of
the wrong type: indexing an absent key yields the null node, the accessors
fail on any null (or otherwise mistyped) indexed value with the
type-mismatch error carrying the key name, and the only error each accessor
ever produces is that type-mismatch error — never a `MissingField`. -/
theorem accessors_conflate_absent_and_wrong_type :
    (∀ (ms : List (String × Json)) (k : String), k ∉ ms.map Prod.fst →
      Json.index (.obj ms) k = .null)
    ∧ (∀ (v : Json) (k : String), v.index k = .null →
        JsonAccessors.getObject v k = .error (.notAnObject k)
        ∧ JsonAccessors.getString v k = .error (.notAString k)
        ∧ JsonAccessors.getBool v k = .error (.notABoolean k))
    ∧ (∀ (v : Json) (k : String) (e : JsonError),
        JsonAccessors.getObject v k = .error e → e = .notAnObject k)
    ∧ (∀ (v : Json) (k : String) (e : JsonError),
        JsonAccessors.getString v k = .error e → e = .notAString k)
    ∧ (∀ (v : Json) (k : String) (e : JsonError),
        JsonAccessors.getBool v k = .error e → e = .notABoolean k) := by
  refine ⟨fun ms k h => index_obj_of_not_mem h, fun v k h => ?_, ?_, ?_, ?_⟩
  · exact ⟨getObject_err (by rw [h]; rfl),
      by simp [JsonAccessors.getString, h],
      by simp [JsonAccessors.getBool, h]⟩
  · intro v k e h
    simp only [JsonAccessors.getObject] at h
    split at h
    · exact absurd h (by simp)
    · injection h with h2
      exact h2.symm
  · intro v k e h
    simp only [JsonAccessors.getString] at h
    split at h
    · exact absurd h (by simp)
    · injection h with h2
      exact h2.symm
  · intro v k e h
    simp only [JsonAccessors.getBool] at h
    split at h
    · exact absurd h (by simp)
    · injection h with h2
      exact h2.symm

/-- C9 witness: on a one-member object, the absent key "absent" indexes to
null and `getString` fails on it with "absent is not a string"; the present
string-typed key "k" makes `getBool` fail with the same-shaped error
"k is not a boolean". -/
theorem accessors_conflate_witness :
    Json.index (.obj [("k", Json.str "s")]) "absent" = .null
    ∧ JsonAccessors.getString (.obj [("k", Json.str "s")]) "absent" =
        .error (.notAString "absent")
    ∧ JsonAccessors.getBool (.obj [("k", Json.str "s")]) "k" =
        .error (.notABoolean "k") := by
  have h := accessors_conflate_absent_and_wrong_type
  have habs : Json.index (.obj [("k", Json.str "s")]) "absent" = .null :=
    h.1 [("k", Json.str "s")] "absent" (by decide)
  exact ⟨habs, (h.2.1 (.obj [("k", Json.str "s")]) "absent" habs).2.1, rfl⟩

